import Mathlib

/-!
# Verification of the Lynn PyMOL plugin scripts

A shallow embedding of the DNA-sequence analysis logic of this repository
(`lynn.py`, `human_tumor_gene.py`), with theorems checking the
specification's claims about it.

Conventions of the embedding:
* DNA sequences and other Python strings of interest are `List Char`;
  the Python slice `s[a:b]` becomes `(s.take b).drop a`.
* Python float arithmetic on percentages is modelled exactly over `ℚ`
  (every value arising here is a ratio of small integers, which floats
  represent only approximately but whose algebraic laws are the ones the
  spec states).
* Code that raises or reports an error is modelled with `Except`/`Option`.
* Calls to `random.choice`-style randomness are modelled by explicit draw
  functions passed as parameters, so each realization of the randomness
  is an instance of the definition.
-/

/-- Python slice `s[a:b]` for natural bounds (clamped at both ends). -/
def sliceStr (s : List Char) (a b : Nat) : List Char := (s.take b).drop a

/-- `calculate_gc_content` from `lynn.py` (lines 231-234):
`(sequence.count('G') + sequence.count('C')) / len(sequence) * 100`.
The same expression appears inline in `analyze_tumor_gene`
(`human_tumor_gene.py` lines 37-39) and for guide RNAs
(`human_tumor_gene.py` line 225).  Python raises `ZeroDivisionError` on an
empty sequence; over `ℚ` division by zero returns the junk value `0`, and
the one caller that can reach the empty case (`lynn_pam_analyze`) models
the raised exception explicitly. -/
def calculate_gc_content (s : List Char) : ℚ :=
  (((s.count 'G' + s.count 'C' : Nat) : ℚ)) / ((s.length : Nat) : ℚ) * 100

/-- The ASCII whitespace characters removed by Python `str.strip()`. -/
def pyIsSpace (c : Char) : Bool :=
  c == ' ' || c == '\t' || c == '\n' || c == '\r' || c == '\x0b' || c == '\x0c'

/-- Remove leading and trailing characters satisfying `p`, as Python
`str.strip(chars)` does. -/
def stripEnds (p : Char → Bool) (l : List Char) : List Char :=
  ((l.dropWhile p).reverse.dropWhile p).reverse

/-- The single-quote character (by code point, U+0027). -/
def squote : Char := Char.ofNat 39

/-- The double-quote character. -/
def dquote : Char := Char.ofNat 34

/-- The cleaning step of `lynn_pam_analyze` (`lynn.py` line 317):
`sequence.strip().strip(DQ).strip(SQ).replace(" ", "").upper()` where `DQ`
and `SQ` are the double- and single-quote characters. -/
def cleanSequence (l : List Char) : List Char :=
  ((stripEnds (fun c => c == squote)
        (stripEnds (fun c => c == dquote) (stripEnds pyIsSpace l))).filter
      (fun c => c != ' ')).map Char.toUpper

/-- The base alphabet of the validation in `lynn_pam_analyze`
(`lynn.py` line 326: `all(base in 'ATCG' for base in sequence)`). -/
def validBases : List Char := ['A', 'T', 'C', 'G']

/-- The validation test of `lynn.py` line 326. -/
def validSeq (l : List Char) : Bool := l.all (fun c => validBases.contains c)

/-- One synthetic PAM site produced by `generate_pam_sites`
(`lynn.py` lines 248-253). -/
structure PamSite where
  position : Nat
  guide : List Char
  pam : List Char
  gc_content : ℚ
deriving DecidableEq, Repr

/-- `generate_pam_sites` from `lynn.py` (lines 236-255):
`for i in range(0, len(sequence), 20): if i + 22 <= len(sequence): append`.
The random PAM base and random 20-mer guide are modelled by the draw
functions `pamDraw` and `guideDraw`, indexed by the window position. -/
def generate_pam_sites (pamDraw : Nat → Char) (guideDraw : Nat → List Char)
    (s : List Char) : List PamSite :=
  ((List.range' 0 ((s.length + 19) / 20) 20).filter
      (fun i => decide (i + 22 ≤ s.length))).map
    (fun i => ⟨i, guideDraw i, [pamDraw i, 'G', 'G'],
      calculate_gc_content (guideDraw i)⟩)

/-- The failure outcomes of `lynn_pam_analyze` on a provided sequence:
the explicit invalid-sequence report (`lynn.py` lines 326-328), the
`ZeroDivisionError` raised by `calculate_gc_content` on an empty sequence
(line 332), and the `NameError` raised because `generate_sequence_with_pam`
(line 341) is not defined anywhere in the source.  All are caught by the
surrounding `except` and reported. -/
inductive PamError where
  | invalidSequence
  | divisionByZero
  | nameError
deriving DecidableEq, Repr

/-- The data `lynn_pam_analyze` reports on a successful run. -/
structure PamAnalysis where
  seqUsed : List Char
  gcPercent : ℚ
  sites : List PamSite
deriving DecidableEq, Repr

/-- First warning line printed by `lynn_pam_analyze` for a long sequence
(`lynn.py` line 321). -/
def warnLong1 : String := "Warning: Sequence is very long. Analysis may take some time."

/-- Second warning line printed by `lynn_pam_analyze` for a long sequence
(`lynn.py` line 322). -/
def warnLong2 : String := "Analyzing first 1000 bases..."

/-- Cleaning and truncation step of `lynn_pam_analyze`
(`lynn.py` lines 317-323): returns the warning lines printed and the
sequence that the rest of the command works on. -/
def prepareSequence (raw : List Char) : List String × List Char :=
  let c := cleanSequence raw
  if 10000 < c.length then ([warnLong1, warnLong2], c.take 1000) else ([], c)

/-- Validation and analysis of the prepared sequence
(`lynn.py` lines 325-346). -/
def analyzeChecked (pamDraw : Nat → Char) (guideDraw : Nat → List Char)
    (t : List Char) : Except PamError PamAnalysis :=
  if !validSeq t then .error .invalidSequence
  else if t.length = 0 then .error .divisionByZero
  else
    let sites := generate_pam_sites pamDraw guideDraw t
    if sites.isEmpty then .error .nameError
    else .ok ⟨t, calculate_gc_content t, sites⟩

/-- The deterministic behaviour of `lynn_pam_analyze` on a provided raw
sequence (`lynn.py` lines 316-346): the warning lines printed before the
analysis, paired with the analysis outcome. -/
def lynn_pam_analyze (pamDraw : Nat → Char) (guideDraw : Nat → List Char)
    (raw : List Char) : List String × Except PamError PamAnalysis :=
  let p := prepareSequence raw
  (p.1, analyzeChecked pamDraw guideDraw p.2)

/-- The fields of `LynnAI` relevant to startup (`lynn.py` lines 35-47). -/
structure LynnState where
  deepseekKey : Option String
  openaiKey : String
deriving DecidableEq, Repr

/-- Outcome of constructing `LynnAI`: either `sys.exit(code)` was called
or the object was built. -/
inductive InitResult where
  | exited (code : Nat)
  | ok (st : LynnState)
deriving DecidableEq, Repr

/-- Python truthiness of an `Optional[str]`: `None` and `""` are falsy. -/
def falsyOptStr : Option String → Bool
  | none => true
  | some s => s == ""

/-- `LynnAI.__init__` (`lynn.py` lines 30-47), with the environment as an
explicit map: a missing or empty `DEEPSEEK_API_KEY` only prints a warning,
while a missing or empty `OPENAI_API_KEY` calls `sys.exit(1)`. -/
def LynnAI_init (env : String → Option String) : InitResult :=
  let dk := env "DEEPSEEK_API_KEY"
  let ok := env "OPENAI_API_KEY"
  if falsyOptStr ok then .exited 1
  else .ok ⟨dk, ok.getD ""⟩

/-! ## The motif scanner of `analyze_long_dna_sequence`
(`human_tumor_gene.py` lines 142-234) -/

/-- The motif kinds of the `mutation_patterns` table
(`human_tumor_gene.py` lines 155-162), in its (insertion) order. -/
inductive MKind where
  | CpG
  | TandemRepeat
  | Microsatellite
  | Palindromic
  | StopCodon
  | SpliceSite
deriving DecidableEq, Repr

/-- One entry of `mutation_sites` (`human_tumor_gene.py` lines 173-177
and 183-187). -/
structure MSite where
  position : Nat
  kind : MKind
  text : List Char
deriving DecidableEq, Repr

/-- The `re.finditer` scan loop: at each position try the pattern; on a
match of length `L` record `(position, L)` and resume at `position + L`
(none of the patterns used here matches the empty string); otherwise
advance one position.  `fuel` bounds the number of scan steps; since every
step advances the position by at least one, `s.length + 1` steps reach the
end of any string `s`. -/
def finditerAux (mAt : Nat → Option Nat) : Nat → Nat → List (Nat × Nat)
  | 0, _ => []
  | fuel + 1, i =>
    match mAt i with
    | some L => (i, L) :: finditerAux mAt fuel (i + L)
    | none => finditerAux mAt fuel (i + 1)

/-- `re.finditer(pattern, s)` as a list of `(start, length)` pairs, for a
pattern whose match attempt at one position is `mAt`. -/
def pyFinditer (s : List Char) (mAt : List Char → Nat → Option Nat) :
    List (Nat × Nat) :=
  finditerAux (mAt s) (s.length + 1) 0

/-- Length of the run of copies of `c` at the head of `l`. -/
def runLen (c : Char) (l : List Char) : Nat :=
  (l.takeWhile (fun d => d == c)).length

/-- Match attempt of the regex `CG` (kind CpG) at position `i`. -/
def cpgMatchAt (s : List Char) (i : Nat) : Option Nat :=
  match s.drop i with
  | 'C' :: 'G' :: _ => some 2
  | _ => none

/-- Match attempt of the regex `(.)\1{2,}` (kind "Tandem repeat") at
position `i`: any character except a newline, greedily repeated, at least
three in total. -/
def tandemMatchAt (s : List Char) (i : Nat) : Option Nat :=
  match s.drop i with
  | [] => none
  | c :: rest =>
    if c == '\n' then none
    else
      let r := 1 + runLen c rest
      if 3 ≤ r then some r else none

/-- The character class `[ACGT]` of the regexes in `mutation_patterns`. -/
def acgtBases : List Char := ['A', 'C', 'G', 'T']

/-- Match attempt of the regex `([ACGT])\1{4,}` (kind "Microsatellite")
at position `i`: a base, greedily repeated, at least five in total. -/
def microMatchAt (s : List Char) (i : Nat) : Option Nat :=
  match s.drop i with
  | [] => none
  | c :: rest =>
    if acgtBases.contains c then
      let r := 1 + runLen c rest
      if 5 ≤ r then some r else none
    else none

/-- Length of the run of `[ACGT]` characters starting at position `i`. -/
def acgtRunAt (s : List Char) (i : Nat) : Nat :=
  ((s.drop i).takeWhile (fun c => acgtBases.contains c)).length

/-- The lazy tail `.*?\1` of the regex `([ACGT]{4,}).*?\1`, for a fixed
capture length `L` at position `i`: the least gap `g` such that the
captured block recurs right after the gap and the gap crosses no newline
(`.` does not match a newline). -/
def palinGap (s : List Char) (i L : Nat) : Option Nat :=
  (List.range (s.length + 1)).find? (fun g =>
    decide (i + 2 * L + g ≤ s.length)
    && (sliceStr s i (i + L) == sliceStr s (i + L + g) (i + L + g + L))
    && (sliceStr s (i + L) (i + L + g)).all (fun c => c != '\n'))

/-- `[m, m-1, ..., 4]`: the capture lengths the greedy `[ACGT]{4,}` tries,
longest first. -/
def descFromTo4 (m : Nat) : List Nat :=
  (List.range (m - 3)).map (fun k => m - k)

/-- Match attempt of the regex `([ACGT]{4,}).*?\1` (kind "Palindromic")
at position `i`, following the backtracking order of the Python engine:
the greedy group tries the longest capture first and, for each capture,
the lazy gap tries the shortest gap first. -/
def palinMatchAt (s : List Char) (i : Nat) : Option Nat :=
  let m := acgtRunAt s i
  if 4 ≤ m then
    (descFromTo4 m).findSome? (fun L =>
      (palinGap s i L).map (fun g => 2 * L + g))
  else none

/-- Offset of the first occurrence of `pat` in `l` (helper for Python
`str.find`). -/
def firstIdx (pat : List Char) : List Char → Option Nat
  | [] => if pat.isEmpty then some 0 else none
  | c :: rest =>
    if pat.isPrefixOf (c :: rest) then some 0
    else (firstIdx pat rest).map (fun k => k + 1)

/-- Python `s.find(pat, start)`, with `-1` modelled as `none`. -/
def pyFind (s pat : List Char) (start : Nat) : Option Nat :=
  (firstIdx pat (s.drop start)).map (fun k => k + start)

/-- The literal-motif loop of `analyze_long_dna_sequence`
(`human_tumor_gene.py` lines 181-188): `pos = sequence.find(motif)`, then
repeatedly record `pos` and resume with `sequence.find(motif, pos + 1)`.
`fuel` bounds the iterations; successive found positions strictly
increase, so `s.length + 1` iterations suffice. -/
def findLoopAux (s pat : List Char) : Nat → Nat → List Nat
  | 0, _ => []
  | fuel + 1, start =>
    match pyFind s pat start with
    | none => []
    | some p => p :: findLoopAux s pat fuel (p + 1)

/-- All positions recorded by the resumed-search loop for motif `pat`. -/
def findLoop (s pat : List Char) : List Nat := findLoopAux s pat (s.length + 1) 0

/-- Sites produced by one regex pattern: position, kind, and the matched
substring `sequence[pos : pos + L]` (`match.group()`). -/
def reSites (k : MKind) (mAt : List Char → Nat → Option Nat) (s : List Char) :
    List MSite :=
  (pyFinditer s mAt).map (fun pr => ⟨pr.1, k, sliceStr s pr.1 (pr.1 + pr.2)⟩)

/-- The stop-codon motif list (`human_tumor_gene.py` line 160). -/
def stopMotifs : List (List Char) := [['T','A','A'], ['T','A','G'], ['T','G','A']]

/-- The splice-site motif list (`human_tumor_gene.py` line 161). -/
def spliceMotifs : List (List Char) := [['G','T'], ['A','G']]

/-- Sites produced by one list-of-literals pattern
(`human_tumor_gene.py` lines 178-188): for each motif in order, all
positions from the resumed-search loop, with the matched substring
`sequence[pos : pos + len(motif)]`. -/
def literalSites (k : MKind) (motifs : List (List Char)) (s : List Char) :
    List MSite :=
  motifs.flatMap (fun m =>
    (findLoop s m).map (fun p => ⟨p, k, sliceStr s p (p + m.length)⟩))

/-- The unsorted `mutation_sites` list: all six patterns applied in the
insertion order of the `mutation_patterns` dict. -/
def allMutationSites (s : List Char) : List MSite :=
  reSites .CpG cpgMatchAt s ++ reSites .TandemRepeat tandemMatchAt s ++
  reSites .Microsatellite microMatchAt s ++ reSites .Palindromic palinMatchAt s ++
  literalSites .StopCodon stopMotifs s ++ literalSites .SpliceSite spliceMotifs s

/-- `mutation_sites.sort(key=lambda x: x['position'])`
(`human_tumor_gene.py` lines 190-191).  Python's sort is a stable sort by
the key, as is `mergeSort` with this comparison. -/
def mutation_sites (s : List Char) : List MSite :=
  (allMutationSites s).mergeSort (fun a b => decide (a.position ≤ b.position))

/-! ## The guide-RNA candidate generator
(`human_tumor_gene.py` lines 199-228) -/

/-- `start = max(0, site['position'] - context_size)` with
`context_size = 30` (`human_tumor_gene.py` line 205); truncated `ℕ`
subtraction is exactly that max. -/
def contextStart (sp : Nat) : Nat := sp - 30

/-- `end = min(len(sequence), site['position'] + context_size)`
(`human_tumor_gene.py` line 206). -/
def contextEnd (s : List Char) (sp : Nat) : Nat := min s.length (sp + 30)

/-- `context = sequence[start:end]` (`human_tumor_gene.py` line 207). -/
def contextOf (s : List Char) (sp : Nat) : List Char :=
  sliceStr s (contextStart sp) (contextEnd s sp)

/-- The character class `[ATCG]` of the PAM regex
(`human_tumor_gene.py` line 201). -/
def pamBases : List Char := ['A', 'T', 'C', 'G']

/-- Does the regex `[ATCG]GG` match at the head of `l`? -/
def pamHead : List Char → Bool
  | a :: b :: c :: _ => pamBases.contains a && b == 'G' && c == 'G'
  | _ => false

/-- Does the regex `[ATCG]GG` match at position `k` of `l`? -/
def isPamAt (l : List Char) (k : Nat) : Bool := pamHead (l.drop k)

/-- `re.finditer(r'[ATCG]GG', context)` start positions, offset by `i`:
the usual non-overlapping left-to-right scan, resuming three characters
past each match. -/
def pamScan : List Char → Nat → List Nat
  | a :: b :: c :: rest, i =>
    if pamHead (a :: b :: c :: rest) then i :: pamScan rest (i + 3)
    else pamScan (b :: c :: rest) (i + 1)
  | _ :: rest, i => pamScan rest (i + 1)
  | [], _ => []

/-- `pam_pos = pam_site.start() + start` (`human_tumor_gene.py` line 215):
the PAM match positions, made absolute in the full sequence. -/
def pamMatches (s : List Char) (sp : Nat) : List Nat :=
  (pamScan (contextOf s sp) 0).map (fun j => j + contextStart sp)

/-- One guide-RNA candidate as printed by `analyze_long_dna_sequence`
(`human_tumor_gene.py` lines 223-225). -/
structure GuideCandidate where
  guide : List Char
  pamPos : Nat
  gcPercent : ℚ
deriving DecidableEq, Repr

/-- The guide candidates printed for the motif site at position `sp`
(`human_tumor_gene.py` lines 213-225): for each absolute PAM position `p`,
require `p >= 20`, set `guide = sequence[p - 20 : p]`, and keep the
candidate only if `p - 20 <= sp < p`; its GC content is
`(guide.count('G') + guide.count('C')) / len(guide) * 100`. -/
def guideCandidates (s : List Char) (sp : Nat) : List GuideCandidate :=
  (pamMatches s sp).filterMap (fun p =>
    if 20 ≤ p then
      if p - 20 ≤ sp ∧ sp < p then
        some ⟨sliceStr s (p - 20) p, p,
          calculate_gc_content (sliceStr s (p - 20) p)⟩
      else none
    else none)

/-! ## Helper lemmas -/

theorem count_G_add_count_C_le_length (s : List Char) :
    s.count 'G' + s.count 'C' ≤ s.length := by
  induction s with
  | nil => simp
  | cons c t ih =>
    simp only [List.count_cons, List.length_cons]
    by_cases h1 : c == 'G' <;> by_cases h2 : c == 'C' <;> simp_all <;> omega

theorem count_GC_eq_length_of_all_GC (s : List Char)
    (h : ∀ c ∈ s, c = 'G' ∨ c = 'C') :
    s.count 'G' + s.count 'C' = s.length := by
  induction s with
  | nil => simp
  | cons c t ih =>
    have ht : ∀ x ∈ t, x = 'G' ∨ x = 'C' := fun x hx => h x (by simp [hx])
    have ih' := ih ht
    rcases h c (by simp) with rfl | rfl <;>
      simp only [List.count_cons, List.length_cons] <;> simp <;> omega

theorem count_GC_eq_zero_of_all_AT (s : List Char)
    (h : ∀ c ∈ s, c = 'A' ∨ c = 'T') :
    s.count 'G' = 0 ∧ s.count 'C' = 0 := by
  constructor <;> rw [List.count_eq_zero] <;> intro hm <;>
    rcases h _ hm with h' | h' <;> exact absurd h' (by decide)

/-! ## C5: GC content bounds -/

/-- **C5.** For every non-empty sequence over {A,C,G,T},
`calculate_gc_content` equals `100 * (count(G)+count(C)) / length`, lies in
`[0, 100]`, equals `100` when every character is G or C, and equals `0`
when every character is A or T. -/
theorem gc_content_bounds (s : List Char) (hne : s ≠ [])
    (halpha : ∀ c ∈ s, c ∈ validBases) :
    calculate_gc_content s =
        100 * ((s.count 'G' + s.count 'C' : Nat) : ℚ) / ((s.length : Nat) : ℚ)
    ∧ 0 ≤ calculate_gc_content s ∧ calculate_gc_content s ≤ 100
    ∧ ((∀ c ∈ s, c = 'G' ∨ c = 'C') → calculate_gc_content s = 100)
    ∧ ((∀ c ∈ s, c = 'A' ∨ c = 'T') → calculate_gc_content s = 0) := by
  have hlen : 0 < s.length := List.length_pos.mpr hne
  have hlenQ : (0 : ℚ) < ((s.length : Nat) : ℚ) := by exact_mod_cast hlen
  have hkle : s.count 'G' + s.count 'C' ≤ s.length :=
    count_G_add_count_C_le_length s
  refine ⟨?_, ?_, ?_, ?_, ?_⟩
  · unfold calculate_gc_content
    rw [mul_comm, mul_div_assoc]
  · unfold calculate_gc_content
    positivity
  · unfold calculate_gc_content
    have hdiv : ((s.count 'G' + s.count 'C' : Nat) : ℚ) / ((s.length : Nat) : ℚ) ≤ 1 := by
      rw [div_le_one hlenQ]
      exact_mod_cast hkle
    calc ((s.count 'G' + s.count 'C' : Nat) : ℚ) / ((s.length : Nat) : ℚ) * 100
        ≤ 1 * 100 := by nlinarith
      _ = 100 := by norm_num
  · intro hgc
    unfold calculate_gc_content
    rw [count_GC_eq_length_of_all_GC s hgc, div_self (ne_of_gt hlenQ)]
    norm_num
  · intro hat
    obtain ⟨h1, h2⟩ := count_GC_eq_zero_of_all_AT s hat
    unfold calculate_gc_content
    rw [h1, h2]
    norm_num

/-- Witness for C5 at the concrete sequence "GC". -/
theorem gc_content_bounds_witness :
    calculate_gc_content ['G', 'C'] =
        100 * (((['G', 'C'] : List Char).count 'G' + (['G', 'C'] : List Char).count 'C' : Nat) : ℚ)
          / (((['G', 'C'] : List Char).length : Nat) : ℚ)
    ∧ 0 ≤ calculate_gc_content ['G', 'C'] ∧ calculate_gc_content ['G', 'C'] ≤ 100
    ∧ ((∀ c ∈ (['G', 'C'] : List Char), c = 'G' ∨ c = 'C') →
        calculate_gc_content ['G', 'C'] = 100)
    ∧ ((∀ c ∈ (['G', 'C'] : List Char), c = 'A' ∨ c = 'T') →
        calculate_gc_content ['G', 'C'] = 0) :=
  gc_content_bounds ['G', 'C'] (by decide) (by decide)

/-! ## C7: normalize is idempotent on successful inputs -/

theorem validBase_clean_invariant (c : Char) (h : c ∈ validBases) :
    pyIsSpace c = false ∧ (c == dquote) = false ∧ (c == squote) = false ∧
    (c != ' ') = true ∧ Char.toUpper c = c := by
  fin_cases h <;> exact (by decide)

theorem dropWhile_eq_self_of_none (p : Char → Bool) (l : List Char)
    (h : ∀ c ∈ l, p c = false) : l.dropWhile p = l := by
  cases l with
  | nil => rfl
  | cons c t => simp [List.dropWhile_cons, h c (by simp)]

theorem stripEnds_eq_self (p : Char → Bool) (l : List Char)
    (h : ∀ c ∈ l, p c = false) : stripEnds p l = l := by
  unfold stripEnds
  rw [dropWhile_eq_self_of_none p l h,
    dropWhile_eq_self_of_none p l.reverse (fun c hc => h c (List.mem_reverse.mp hc)),
    List.reverse_reverse]

theorem cleanSequence_fixpoint (l : List Char) (h : ∀ c ∈ l, c ∈ validBases) :
    cleanSequence l = l := by
  unfold cleanSequence
  rw [stripEnds_eq_self _ _ (fun c hc => (validBase_clean_invariant c (h c hc)).1),
    stripEnds_eq_self _ _ (fun c hc => (validBase_clean_invariant c (h c hc)).2.1),
    stripEnds_eq_self _ _ (fun c hc => (validBase_clean_invariant c (h c hc)).2.2.1),
    List.filter_eq_self.mpr (fun c hc => (validBase_clean_invariant c (h c hc)).2.2.2.1)]
  rw [List.map_congr_left (fun c hc => (validBase_clean_invariant c (h c hc)).2.2.2.2)]
  exact List.map_id l

/-- **C7.** `normalize` is idempotent: on every input whose cleaned form
passes the validation (i.e. on which the normalization step succeeds),
applying the cleaning step to its own output returns the output
unchanged. -/
theorem normalize_idempotent (x : List Char)
    (h : validSeq (cleanSequence x) = true) :
    cleanSequence (cleanSequence x) = cleanSequence x := by
  apply cleanSequence_fixpoint
  intro c hc
  have h' := (List.all_eq_true.mp h) c hc
  simpa using h'

/-- Witness for C7 at the concrete raw input `" atg "`. -/
theorem normalize_idempotent_witness :
    cleanSequence (cleanSequence [' ', 'a', 't', 'g', ' ']) =
      cleanSequence [' ', 'a', 't', 'g', ' '] :=
  normalize_idempotent [' ', 'a', 't', 'g', ' '] (by decide)

/-! ## C9: missing required credential at startup is fatal -/

/-- **C9.** Constructing the chatbot exits the process with code 1 when
the required `OPENAI_API_KEY` is absent from the environment. -/
theorem missing_openai_key_exits (env : String → Option String)
    (h : env "OPENAI_API_KEY" = none) :
    LynnAI_init env = InitResult.exited 1 := by
  simp [LynnAI_init, h, falsyOptStr]

/-- Witness for C9 at the concrete empty environment. -/
theorem missing_openai_key_exits_witness :
    LynnAI_init (fun _ => none) = InitResult.exited 1 :=
  missing_openai_key_exits (fun _ => none) rfl

/-! ## C8: invariants of the synthetic PAM-site generator -/

theorem filter_range'_window (n m : Nat) :
    ∀ a : Nat, ∃ t ≤ m,
      (List.range' a m 20).filter (fun i => decide (i + 22 ≤ n)) =
        List.range' a t 20 := by
  induction m with
  | zero => exact fun a => ⟨0, le_rfl, rfl⟩
  | succ m ih =>
    intro a
    rcases ih (a + 20) with ⟨t, ht, heq⟩
    by_cases h : a + 22 ≤ n
    · refine ⟨t + 1, by omega, ?_⟩
      rw [List.range'_succ, List.filter_cons, List.range'_succ]
      simp [h, heq]
    · refine ⟨0, Nat.zero_le _, ?_⟩
      rw [List.range'_succ, List.filter_cons]
      have hall : (List.range' (a + 20) m 20).filter
          (fun i => decide (i + 22 ≤ n)) = [] := by
        rw [List.filter_eq_nil_iff]
        intro x hx
        rcases List.mem_range'.mp hx with ⟨j, hj, rfl⟩
        simp only [decide_eq_true_eq]
        omega
      simp [h, hall]

theorem chain'_add20_range' (t : Nat) :
    ∀ a : Nat, List.Chain' (fun x y => y = x + 20) (List.range' a t 20) := by
  induction t with
  | zero => intro a; simp
  | succ t ih =>
    intro a
    rw [List.range'_succ, List.chain'_cons']
    refine ⟨?_, ih (a + 20)⟩
    intro b hb
    cases t with
    | zero => simp at hb
    | succ t' =>
      rw [List.range'_succ] at hb
      simp at hb
      omega

/-- **C8.** For every sequence and every realization of the random draws,
the synthetic PAM-site generator's output has `20 * (number of sites) ≤
sequence length`; every site position is a multiple of 20 with
`position + 22 ≤ length`; and consecutive sites are exactly 20 bases
apart (so their 20-base windows are adjacent and non-overlapping). -/
theorem generate_pam_sites_invariants (pamDraw : Nat → Char)
    (guideDraw : Nat → List Char) (s : List Char) :
    20 * (generate_pam_sites pamDraw guideDraw s).length ≤ s.length
    ∧ ((generate_pam_sites pamDraw guideDraw s).all (fun st =>
        decide (20 ∣ st.position) && decide (st.position + 22 ≤ s.length))) = true
    ∧ List.Chain' (fun x y => y.position = x.position + 20)
        (generate_pam_sites pamDraw guideDraw s) := by
  rcases filter_range'_window s.length ((s.length + 19) / 20) 0 with ⟨t, ht, heq⟩
  unfold generate_pam_sites
  rw [heq]
  refine ⟨?_, ?_, ?_⟩
  · rw [List.length_map, List.length_range']
    rcases Nat.eq_zero_or_pos t with rfl | htpos
    · simp
    · have hmem : 0 + 20 * (t - 1) ∈ List.range' 0 t 20 :=
        List.mem_range'.mpr ⟨t - 1, by omega, rfl⟩
      rw [← heq] at hmem
      rcases List.mem_filter.mp hmem with ⟨-, hcond⟩
      have := of_decide_eq_true hcond
      omega
  · rw [List.all_eq_true]
    intro st hst
    rcases List.mem_map.mp hst with ⟨i, hi, rfl⟩
    rcases List.mem_range'.mp hi with ⟨j, hj, rfl⟩
    have hmem : (0 + 20 * j) ∈ List.range' 0 t 20 :=
      List.mem_range'.mpr ⟨j, hj, rfl⟩
    rw [← heq] at hmem
    rcases List.mem_filter.mp hmem with ⟨-, hcond2⟩
    have h22 := of_decide_eq_true hcond2
    simp only [Bool.and_eq_true, decide_eq_true_eq]
    exact ⟨⟨j, by omega⟩, h22⟩
  · rw [List.chain'_map]
    have hch := chain'_add20_range' t 0
    exact hch.imp (fun a b hab => by simp [hab])

/-! ## C6: failure behaviour of the sequence validation -/

/-- **C6 (amended).** After cleaning (and truncation of over-long input to
its first 1000 characters), `lynn_pam_analyze` fails with the
invalid-sequence error exactly when the sequence it analyzes contains a
character outside {A,T,C,G}, and fails with the division-by-zero error
(raised by `calculate_gc_content`) exactly when that sequence is valid but
empty. -/
theorem pam_analyze_error_characterization (pamDraw : Nat → Char)
    (guideDraw : Nat → List Char) (raw : List Char) :
    ((lynn_pam_analyze pamDraw guideDraw raw).2 =
        Except.error PamError.invalidSequence
      ↔ validSeq (prepareSequence raw).2 = false)
    ∧ ((lynn_pam_analyze pamDraw guideDraw raw).2 =
        Except.error PamError.divisionByZero
      ↔ validSeq (prepareSequence raw).2 = true ∧ (prepareSequence raw).2 = []) := by
  unfold lynn_pam_analyze analyzeChecked
  by_cases hv : validSeq (prepareSequence raw).2
  · simp only [hv, Bool.not_true, Bool.false_eq_true, if_false]
    by_cases hlen : (prepareSequence raw).2.length = 0
    · simp [hlen, List.length_eq_zero.mp hlen]
    · have hne : (prepareSequence raw).2 ≠ [] := by
        intro h; exact hlen (by simp [h])
      by_cases hs : (generate_pam_sites pamDraw guideDraw
          (prepareSequence raw).2).isEmpty <;>
        simp [hlen, hs, hne]
  · have hv' : validSeq (prepareSequence raw).2 = false :=
      Bool.eq_false_iff.mpr hv
    simp [hv']

/-- **C6 counterexample.** On the empty input, `lynn_pam_analyze` fails
via the `ZeroDivisionError` raised by `calculate_gc_content`, not via the
invalid-sequence validation error the claim names (the validation
`all(base in 'ATCG' ...)` is vacuously true on an empty string). -/
theorem pam_analyze_empty_not_invalid :
    (lynn_pam_analyze (fun _ => 'A') (fun _ => []) []).2 =
        Except.error PamError.divisionByZero
    ∧ (lynn_pam_analyze (fun _ => 'A') (fun _ => []) []).2 ≠
        Except.error PamError.invalidSequence := by
  have h : (lynn_pam_analyze (fun _ => 'A') (fun _ => []) []).2 =
      Except.error PamError.divisionByZero := rfl
  exact ⟨h, by rw [h]; simp⟩

/-! ## C10: truncation of over-long input -/

/-- **C10 (amended).** When the cleaned input is longer than 10000
characters, `lynn_pam_analyze` prints the two truncation warning lines
and then validates and analyzes only the first 1000 characters; when the
cleaned input has length at most 10000, it prints no warning and analyzes
the cleaned input in full. -/
theorem pam_analyze_truncation (pamDraw : Nat → Char)
    (guideDraw : Nat → List Char) (raw : List Char) :
    lynn_pam_analyze pamDraw guideDraw raw =
      if 10000 < (cleanSequence raw).length then
        ([warnLong1, warnLong2],
          analyzeChecked pamDraw guideDraw ((cleanSequence raw).take 1000))
      else ([], analyzeChecked pamDraw guideDraw (cleanSequence raw)) := by
  unfold lynn_pam_analyze prepareSequence
  by_cases h : 10000 < (cleanSequence raw).length <;> simp [h]

theorem clean_replicate_A (n : Nat) :
    cleanSequence (List.replicate n 'A') = List.replicate n 'A' :=
  cleanSequence_fixpoint _ (fun c hc => by
    rcases List.eq_of_mem_replicate hc with rfl
    decide)

/-- **C10 counterexample.** On an input of 10001 bases the command does
not truncate silently: it prints the two warning lines announcing that
only the first 1000 bases are analyzed. -/
theorem pam_analyze_truncation_not_silent :
    (lynn_pam_analyze (fun _ => 'A') (fun _ => [])
        (List.replicate 10001 'A')).1 = [warnLong1, warnLong2] := by
  have h : 10000 < (cleanSequence (List.replicate 10001 'A')).length := by
    rw [clean_replicate_A, List.length_replicate]
    omega
  unfold lynn_pam_analyze prepareSequence
  simp only [h, if_true, if_pos h]

/-! ## Lemmas about the PAM scan (`re.finditer(r'[ATCG]GG', context)`) -/

theorem pamHead_length (l : List Char) (h : pamHead l = true) : 3 ≤ l.length := by
  cases l with
  | nil => simp [pamHead] at h
  | cons a t =>
    cases t with
    | nil => simp [pamHead] at h
    | cons b u =>
      cases u with
      | nil => simp [pamHead] at h
      | cons c v => simp

theorem isPamAt_bound (l : List Char) (k : Nat) (h : isPamAt l k = true) :
    k + 3 ≤ l.length := by
  have h3 := pamHead_length _ h
  rw [List.length_drop] at h3
  omega

theorem isPamAt_cons3_add3 (a b c : Char) (rest : List Char) (k : Nat) :
    isPamAt (a :: b :: c :: rest) (k + 3) = isPamAt rest k := rfl

theorem isPamAt_cons_add1 (a : Char) (rest : List Char) (k : Nat) :
    isPamAt (a :: rest) (k + 1) = isPamAt rest k := rfl

theorem pamScan_short (hd : Char) (rest : List Char)
    (hshape : ∀ (b c : Char) (r : List Char), rest = b :: c :: r → False) :
    (∀ i, pamScan (hd :: rest) i = pamScan rest (i + 1)) ∧
      pamHead (hd :: rest) = false := by
  rcases rest with _ | ⟨x, t⟩
  · exact ⟨fun i => rfl, rfl⟩
  · rcases t with _ | ⟨y, r⟩
    · exact ⟨fun i => rfl, rfl⟩
    · exact (hshape x y r rfl).elim

theorem pamScan_sound (l : List Char) (i : Nat) :
    ∀ p ∈ pamScan l i, i ≤ p ∧ isPamAt l (p - i) = true := by
  induction l, i using pamScan.induct with
  | case1 a b c rest i hh ih =>
    intro p hp
    simp only [pamScan] at hp
    rw [if_pos hh] at hp
    rcases List.mem_cons.mp hp with rfl | hp'
    · refine ⟨le_rfl, ?_⟩
      rw [Nat.sub_self]
      exact hh
    · rcases ih p hp' with ⟨h1, h2⟩
      refine ⟨by omega, ?_⟩
      have hrw : p - i = (p - (i + 3)) + 3 := by omega
      rw [hrw, isPamAt_cons3_add3]
      exact h2
  | case2 a b c rest i hh ih =>
    intro p hp
    simp only [pamScan] at hp
    rw [if_neg hh] at hp
    rcases ih p hp with ⟨h1, h2⟩
    refine ⟨by omega, ?_⟩
    have hrw : p - i = (p - (i + 1)) + 1 := by omega
    rw [hrw, isPamAt_cons_add1]
    exact h2
  | case3 hd rest i hshape ih =>
    intro p hp
    rw [(pamScan_short hd rest hshape).1 i] at hp
    rcases ih p hp with ⟨h1, h2⟩
    refine ⟨by omega, ?_⟩
    have hrw : p - i = (p - (i + 1)) + 1 := by omega
    rw [hrw, isPamAt_cons_add1]
    exact h2
  | case4 i =>
    intro p hp
    simp [pamScan] at hp

theorem pamScan_ge (l : List Char) (i : Nat) : ∀ p ∈ pamScan l i, i ≤ p :=
  fun p hp => (pamScan_sound l i p hp).1

theorem pamScan_chain (l : List Char) (i : Nat) :
    List.Chain' (fun a b => a + 3 ≤ b) (pamScan l i) := by
  induction l, i using pamScan.induct with
  | case1 a b c rest i hh ih =>
    simp only [pamScan]
    rw [if_pos hh, List.chain'_cons']
    refine ⟨?_, ih⟩
    intro q hq
    have hmem : q ∈ pamScan rest (i + 3) := by
      cases hface : pamScan rest (i + 3) with
      | nil => rw [hface] at hq; simp at hq
      | cons x xs => rw [hface] at hq; simp at hq; simp [hface, hq]
    have := pamScan_ge _ _ q hmem
    omega
  | case2 a b c rest i hh ih =>
    simp only [pamScan]
    rw [if_neg hh]
    exact ih
  | case3 hd rest i hshape ih =>
    rw [(pamScan_short hd rest hshape).1 i]
    exact ih
  | case4 i => simp [pamScan]

theorem pamScan_complete (l : List Char) (i : Nat) :
    ∀ k, isPamAt l k = true →
      (k + i) ∈ pamScan l i ∨
        ∃ j ∈ pamScan l i, j < k + i ∧ k + i < j + 3 := by
  induction l, i using pamScan.induct with
  | case1 a b c rest i hh ih =>
    intro k hk
    simp only [pamScan]
    rw [if_pos hh]
    match k with
    | 0 => exact Or.inl (by simp)
    | 1 => exact Or.inr ⟨i, by simp, by omega, by omega⟩
    | 2 => exact Or.inr ⟨i, by simp, by omega, by omega⟩
    | (k' + 3) =>
      rw [isPamAt_cons3_add3] at hk
      rcases ih k' hk with h | ⟨j, hj, h1, h2⟩
      · left
        rw [List.mem_cons]
        right
        have hrw : k' + 3 + i = k' + (i + 3) := by omega
        rw [hrw]
        exact h
      · right
        exact ⟨j, by simp [hj], by omega, by omega⟩
  | case2 a b c rest i hh ih =>
    intro k hk
    simp only [pamScan]
    rw [if_neg hh]
    match k with
    | 0 => exact absurd hk hh
    | (k' + 1) =>
      rw [isPamAt_cons_add1] at hk
      rcases ih k' hk with h | ⟨j, hj, h1, h2⟩
      · left
        have hrw : k' + 1 + i = k' + (i + 1) := by omega
        rw [hrw]
        exact h
      · right
        exact ⟨j, hj, by omega, by omega⟩
  | case3 hd rest i hshape ih =>
    intro k hk
    rw [(pamScan_short hd rest hshape).1 i]
    match k with
    | 0 =>
      refine absurd hk ?_
      simp [isPamAt, (pamScan_short hd rest hshape).2]
    | (k' + 1) =>
      rw [isPamAt_cons_add1] at hk
      rcases ih k' hk with h | ⟨j, hj, h1, h2⟩
      · left
        have hrw : k' + 1 + i = k' + (i + 1) := by omega
        rw [hrw]
        exact h
      · right
        exact ⟨j, hj, by omega, by omega⟩
  | case4 i =>
    intro k hk
    unfold isPamAt at hk
    simp [pamHead] at hk

/-! ## C2: PAM occurrences recorded in the context window -/

/-- **C2 (amended).** For every motif site, the generator records the
occurrences of `[ATCG]GG` found by the non-overlapping left-to-right scan
of the context window: every recorded absolute position is a genuine
occurrence at or after the window start; successive recorded positions are
at least 3 apart; and every occurrence in the window is either recorded or
overlaps an earlier recorded occurrence (such overlapping occurrences are
skipped, not recorded). -/
theorem pam_matches_characterization (s : List Char) (sp : Nat) :
    (∀ p ∈ pamMatches s sp, contextStart sp ≤ p ∧
        isPamAt (contextOf s sp) (p - contextStart sp) = true)
    ∧ List.Chain' (fun a b => a + 3 ≤ b) (pamMatches s sp)
    ∧ (∀ k, isPamAt (contextOf s sp) k = true →
        k + contextStart sp ∈ pamMatches s sp ∨
          ∃ j ∈ pamMatches s sp, j < k + contextStart sp ∧
            k + contextStart sp < j + 3) := by
  refine ⟨?_, ?_, ?_⟩
  · intro p hp
    rcases List.mem_map.mp hp with ⟨j, hj, rfl⟩
    rcases pamScan_sound _ _ j hj with ⟨-, hpam⟩
    refine ⟨by omega, ?_⟩
    simpa using hpam
  · unfold pamMatches
    rw [List.chain'_map]
    exact (pamScan_chain _ _).imp (fun hab => by omega)
  · intro k hk
    rcases pamScan_complete (contextOf s sp) 0 k hk with h | ⟨j, hj, h1, h2⟩
    · left
      exact List.mem_map.mpr ⟨k + 0, h, by omega⟩
    · right
      exact ⟨j + contextStart sp, List.mem_map.mpr ⟨j, hj, rfl⟩, by omega, by omega⟩

/-- **C2 counterexample.** For the sequence `AGGG` and a site at position
0, the pattern `[ATCG]GG` occurs in the context window at absolute
positions 0 and 1, but the generator records only position 0: the
occurrence at 1, overlapping the previously found occurrence at 0, is
skipped by `re.finditer`, so not every occurrence is recorded. -/
theorem pam_matches_miss_overlap :
    isPamAt (contextOf ['A', 'G', 'G', 'G'] 0) 1 = true
    ∧ pamMatches ['A', 'G', 'G', 'G'] 0 = [0]
    ∧ (1 : Nat) ∉ pamMatches ['A', 'G', 'G', 'G'] 0 := by
  refine ⟨rfl, rfl, ?_⟩
  decide

/-! ## C1: guide candidates for a PAM match -/

theorem sliceStr_length (s : List Char) (a b : Nat) :
    (sliceStr s a b).length = min b s.length - a := by
  simp [sliceStr]

theorem pamMatches_add3_le_length (s : List Char) (sp : Nat) :
    ∀ p ∈ pamMatches s sp, p + 3 ≤ s.length := by
  intro p hp
  rcases List.mem_map.mp hp with ⟨j, hj, rfl⟩
  rcases pamScan_sound _ _ j hj with ⟨-, hpam⟩
  have hb := isPamAt_bound _ _ hpam
  have hlen : (contextOf s sp).length = contextEnd s sp - contextStart sp := by
    unfold contextOf
    rw [sliceStr_length]
    unfold contextEnd
    omega
  rw [hlen] at hb
  have hce : contextEnd s sp ≤ s.length := by
    unfold contextEnd
    omega
  unfold contextStart at hb ⊢
  omega

/-- **C1.** For every sequence, every motif site and every recorded PAM
match at absolute position `p`: a guide candidate with PAM position `p` is
produced if and only if `p ≥ 20` and the guide span `[p-20, p)` contains
the site position; moreover every produced candidate's guide region is
exactly `sequence[p-20 : p]`, of length 20, and its GC percentage is
`100 * (count(G) + count(C)) / length` over that guide. -/
theorem guide_candidate_characterization (s : List Char) (sp p : Nat)
    (hp : p ∈ pamMatches s sp) :
    ((20 ≤ p ∧ p - 20 ≤ sp ∧ sp < p) ↔
      ∃ c ∈ guideCandidates s sp, c.pamPos = p)
    ∧ ((guideCandidates s sp).all (fun c =>
        (c.guide == sliceStr s (c.pamPos - 20) c.pamPos) &&
        (c.guide.length == 20) &&
        decide (c.gcPercent =
          100 * ((c.guide.count 'G' + c.guide.count 'C' : Nat) : ℚ) /
            ((c.guide.length : Nat) : ℚ)))) = true := by
  constructor
  · constructor
    · rintro ⟨h1, h2, h3⟩
      refine ⟨⟨sliceStr s (p - 20) p, p,
        calculate_gc_content (sliceStr s (p - 20) p)⟩, ?_, rfl⟩
      apply List.mem_filterMap.mpr
      refine ⟨p, hp, ?_⟩
      rw [if_pos h1, if_pos ⟨h2, h3⟩]
    · rintro ⟨c, hc, hcp⟩
      rcases List.mem_filterMap.mp hc with ⟨q, hq, hfq⟩
      by_cases h1 : 20 ≤ q
      · rw [if_pos h1] at hfq
        by_cases h2 : q - 20 ≤ sp ∧ sp < q
        · rw [if_pos h2] at hfq
          have hceq := Option.some.inj hfq
          rw [← hceq] at hcp
          have hqp : q = p := hcp
          subst hqp
          exact ⟨h1, h2.1, h2.2⟩
        · rw [if_neg h2] at hfq
          exact absurd hfq (by simp)
      · rw [if_neg h1] at hfq
        exact absurd hfq (by simp)
  · rw [List.all_eq_true]
    intro c hc
    rcases List.mem_filterMap.mp hc with ⟨q, hq, hfq⟩
    by_cases h1 : 20 ≤ q
    · rw [if_pos h1] at hfq
      by_cases h2 : q - 20 ≤ sp ∧ sp < q
      · rw [if_pos h2] at hfq
        have hceq := Option.some.inj hfq
        subst hceq
        have hq3 := pamMatches_add3_le_length s sp q hq
        simp only [Bool.and_eq_true, beq_iff_eq, decide_eq_true_eq]
        refine ⟨⟨by trivial, ?_⟩, ?_⟩
        · rw [sliceStr_length]
          omega
        · unfold calculate_gc_content
          rw [mul_comm, mul_div_assoc]
      · rw [if_neg h2] at hfq
        exact absurd hfq (by simp)
    · rw [if_neg h1] at hfq
      exact absurd hfq (by simp)

/-- Witness for C1: the 23-base sequence of twenty `A`s followed by `AGG`,
whose PAM match at absolute position 20 is recorded for the site at
position 5 and yields a guide candidate. -/
theorem guide_candidate_characterization_witness :
    ((20 ≤ 20 ∧ 20 - 20 ≤ 5 ∧ 5 < 20) ↔
      ∃ c ∈ guideCandidates (List.replicate 20 'A' ++ ['A', 'G', 'G']) 5,
        c.pamPos = 20)
    ∧ ((guideCandidates (List.replicate 20 'A' ++ ['A', 'G', 'G']) 5).all
        (fun c =>
        (c.guide == sliceStr (List.replicate 20 'A' ++ ['A', 'G', 'G'])
          (c.pamPos - 20) c.pamPos) &&
        (c.guide.length == 20) &&
        decide (c.gcPercent =
          100 * ((c.guide.count 'G' + c.guide.count 'C' : Nat) : ℚ) /
            ((c.guide.length : Nat) : ℚ)))) = true :=
  guide_candidate_characterization (List.replicate 20 'A' ++ ['A', 'G', 'G'])
    5 20 (by decide)

/-! ## Lemmas about the resumed literal search (`str.find` loop) -/

theorem isPrefixOf_nil_false (pat : List Char) (hpat : pat ≠ []) :
    pat.isPrefixOf ([] : List Char) = false := by
  cases pat with
  | nil => exact absurd rfl hpat
  | cons c t => rfl

theorem firstIdx_none_no_match (pat : List Char) (hpat : pat ≠ []) :
    ∀ l : List Char, firstIdx pat l = none →
      ∀ k, pat.isPrefixOf (l.drop k) = false := by
  intro l
  induction l with
  | nil =>
    intro _ k
    rw [List.drop_nil]
    exact isPrefixOf_nil_false pat hpat
  | cons c rest ih =>
    intro h k
    unfold firstIdx at h
    by_cases hpre : pat.isPrefixOf (c :: rest)
    · rw [if_pos hpre] at h
      exact absurd h (by simp)
    · rw [if_neg hpre] at h
      have hrest : firstIdx pat rest = none := by
        rcases hfi : firstIdx pat rest with _ | k'
        · rfl
        · rw [hfi] at h
          exact absurd h (by simp)
      cases k with
      | zero =>
        rw [List.drop_zero]
        exact Bool.eq_false_iff.mpr hpre
      | succ k' =>
        rw [List.drop_succ_cons]
        exact ih hrest k'

theorem firstIdx_some_match (pat : List Char) :
    ∀ (l : List Char) (k : Nat), firstIdx pat l = some k →
      pat.isPrefixOf (l.drop k) = true ∧
        ∀ j, j < k → pat.isPrefixOf (l.drop j) = false := by
  intro l
  induction l with
  | nil =>
    intro k h
    unfold firstIdx at h
    by_cases he : pat.isEmpty
    · rw [if_pos he] at h
      have hk : k = 0 := (Option.some.inj h).symm
      subst hk
      refine ⟨?_, fun j hj => absurd hj (by omega)⟩
      rw [List.isEmpty_iff.mp he]
      rfl
    · rw [if_neg he] at h
      exact absurd h (by simp)
  | cons c rest ih =>
    intro k h
    unfold firstIdx at h
    by_cases hpre : pat.isPrefixOf (c :: rest)
    · rw [if_pos hpre] at h
      have hk : k = 0 := (Option.some.inj h).symm
      subst hk
      exact ⟨hpre, fun j hj => absurd hj (by omega)⟩
    · rw [if_neg hpre] at h
      rcases hfi : firstIdx pat rest with _ | k'
      · rw [hfi] at h
        exact absurd h (by simp)
      · rw [hfi] at h
        simp only [Option.map_some'] at h
        have hk : k = k' + 1 := (Option.some.inj h).symm
        subst hk
        rcases ih k' hfi with ⟨h1, h2⟩
        refine ⟨by rw [List.drop_succ_cons]; exact h1, ?_⟩
        intro j hj
        cases j with
        | zero =>
          rw [List.drop_zero]
          exact Bool.eq_false_iff.mpr hpre
        | succ j' =>
          rw [List.drop_succ_cons]
          exact h2 j' (by omega)

theorem pyFind_none_no_match (s pat : List Char) (start : Nat)
    (hpat : pat ≠ []) (h : pyFind s pat start = none) :
    ∀ p, start ≤ p → pat.isPrefixOf (s.drop p) = false := by
  intro p hp
  unfold pyFind at h
  have h' : firstIdx pat (s.drop start) = none := by
    rcases hfi : firstIdx pat (s.drop start) with _ | k
    · rfl
    · rw [hfi] at h
      exact absurd h (by simp)
  have := firstIdx_none_no_match pat hpat _ h' (p - start)
  rw [List.drop_drop] at this
  rw [show start + (p - start) = p by omega] at this
  exact this

theorem pyFind_some_match (s pat : List Char) (start p : Nat)
    (h : pyFind s pat start = some p) :
    start ≤ p ∧ pat.isPrefixOf (s.drop p) = true ∧
      ∀ q, start ≤ q → q < p → pat.isPrefixOf (s.drop q) = false := by
  unfold pyFind at h
  rcases hfi : firstIdx pat (s.drop start) with _ | k
  · rw [hfi] at h
    exact absurd h (by simp)
  · rw [hfi] at h
    simp only [Option.map_some'] at h
    have hk : p = k + start := (Option.some.inj h).symm
    subst hk
    rcases firstIdx_some_match pat _ k hfi with ⟨h1, h2⟩
    rw [List.drop_drop] at h1
    refine ⟨by omega, by rw [show start + k = k + start by omega] at h1; exact h1, ?_⟩
    intro q hq1 hq2
    have := h2 (q - start) (by omega)
    rw [List.drop_drop] at this
    rw [show start + (q - start) = q by omega] at this
    exact this

theorem match_pos_lt_length (s pat : List Char) (p : Nat) (hpat : pat ≠ [])
    (h : pat.isPrefixOf (s.drop p) = true) : p < s.length := by
  by_contra hge
  push_neg at hge
  rw [List.drop_eq_nil_of_le hge] at h
  rw [isPrefixOf_nil_false pat hpat] at h
  exact absurd h (by simp)

theorem findLoopAux_mem (s pat : List Char) (hpat : pat ≠ []) :
    ∀ (fuel start : Nat), s.length + 1 ≤ fuel + start →
      ∀ p, (p ∈ findLoopAux s pat fuel start ↔
        start ≤ p ∧ pat.isPrefixOf (s.drop p) = true) := by
  intro fuel
  induction fuel with
  | zero =>
    intro start hfs p
    simp only [findLoopAux, List.not_mem_nil, false_iff]
    rintro ⟨h1, h2⟩
    have := match_pos_lt_length s pat p hpat h2
    omega
  | succ fuel ih =>
    intro start hfs p
    rcases hfind : pyFind s pat start with _ | q
    · simp only [findLoopAux, hfind, List.not_mem_nil, false_iff]
      rintro ⟨h1, h2⟩
      rw [pyFind_none_no_match s pat start hpat hfind p h1] at h2
      exact absurd h2 (by simp)
    · rcases pyFind_some_match s pat start q hfind with ⟨hq1, hq2, hmin⟩
      have hqlt : q < s.length := match_pos_lt_length s pat q hpat hq2
      simp only [findLoopAux, hfind, List.mem_cons]
      rw [ih (q + 1) (by omega) p]
      constructor
      · rintro (rfl | ⟨h1, h2⟩)
        · exact ⟨hq1, hq2⟩
        · exact ⟨by omega, h2⟩
      · rintro ⟨h1, h2⟩
        by_cases hpq : p = q
        · exact Or.inl hpq
        · right
          refine ⟨?_, h2⟩
          rcases Nat.lt_or_ge p q with hlt | hge
          · rw [hmin p h1 hlt] at h2
            exact absurd h2 (by simp)
          · omega

/-- The resumed-search loop records exactly the positions where the motif
occurs, overlapping occurrences included. -/
theorem findLoop_mem (s pat : List Char) (hpat : pat ≠ []) (p : Nat) :
    p ∈ findLoop s pat ↔ pat.isPrefixOf (s.drop p) = true := by
  unfold findLoop
  rw [findLoopAux_mem s pat hpat (s.length + 1) 0 (by omega) p]
  simp

/-! ## C4: stop-codon sites -/

theorem reSites_kind (k : MKind) (mAt : List Char → Nat → Option Nat)
    (s : List Char) : ∀ st ∈ reSites k mAt s, st.kind = k := by
  intro st hst
  rcases List.mem_map.mp hst with ⟨pr, -, rfl⟩
  rfl

theorem literalSites_kind (k : MKind) (motifs : List (List Char))
    (s : List Char) : ∀ st ∈ literalSites k motifs s, st.kind = k := by
  intro st hst
  rcases List.mem_flatMap.mp hst with ⟨m, -, hm⟩
  rcases List.mem_map.mp hm with ⟨p, -, rfl⟩
  rfl

theorem stopMotifs_ne_nil : ∀ m ∈ stopMotifs, m ≠ [] := by decide

theorem literalSites_stop_mem (s : List Char) (p : Nat) :
    (∃ st ∈ literalSites MKind.StopCodon stopMotifs s, st.position = p) ↔
      ∃ m ∈ stopMotifs, m.isPrefixOf (s.drop p) = true := by
  constructor
  · rintro ⟨st, hst, hpos⟩
    rcases List.mem_flatMap.mp hst with ⟨m, hm, hst'⟩
    rcases List.mem_map.mp hst' with ⟨q, hq, heq⟩
    have hq' := (findLoop_mem s m (stopMotifs_ne_nil m hm) q).mp hq
    have hqp : q = p := by rw [← hpos, ← heq]
    subst hqp
    exact ⟨m, hm, hq'⟩
  · rintro ⟨m, hm, hpre⟩
    refine ⟨⟨p, MKind.StopCodon, sliceStr s p (p + m.length)⟩, ?_, rfl⟩
    apply List.mem_flatMap.mpr
    refine ⟨m, hm, List.mem_map.mpr ⟨p, ?_, rfl⟩⟩
    exact (findLoop_mem s m (stopMotifs_ne_nil m hm) p).mpr hpre

theorem mem_mutation_sites_iff (s : List Char) (st : MSite) :
    st ∈ mutation_sites s ↔ st ∈ allMutationSites s := by
  unfold mutation_sites
  exact List.mem_mergeSort

/-- **C4.** The scanner reports a StopCodon site at position `p` exactly
when one of the literal 3-mers `TAA`, `TAG`, `TGA` occurs at `p`: the
resumed search restarting one past the previous match's start finds every
occurrence, overlapping ones included. -/
theorem stop_codon_sites_characterization (s : List Char) (p : Nat) :
    (∃ st ∈ mutation_sites s, st.kind = MKind.StopCodon ∧ st.position = p) ↔
      ∃ m ∈ stopMotifs, m.isPrefixOf (s.drop p) = true := by
  constructor
  · rintro ⟨st, hst, hkind, hpos⟩
    rw [mem_mutation_sites_iff] at hst
    unfold allMutationSites at hst
    simp only [List.mem_append] at hst
    rcases hst with ((((h | h) | h) | h) | h) | h
    · rw [reSites_kind _ _ _ st h] at hkind
      exact absurd hkind (by simp)
    · rw [reSites_kind _ _ _ st h] at hkind
      exact absurd hkind (by simp)
    · rw [reSites_kind _ _ _ st h] at hkind
      exact absurd hkind (by simp)
    · rw [reSites_kind _ _ _ st h] at hkind
      exact absurd hkind (by simp)
    · exact (literalSites_stop_mem s p).mp ⟨st, h, hpos⟩
    · rw [literalSites_kind _ _ _ st h] at hkind
      exact absurd hkind (by simp)
  · intro h
    rcases (literalSites_stop_mem s p).mpr h with ⟨st, hst, hpos⟩
    have hkind := literalSites_kind _ _ _ st hst
    refine ⟨st, ?_, hkind, hpos⟩
    rw [mem_mutation_sites_iff]
    unfold allMutationSites
    simp only [List.mem_append]
    exact Or.inl (Or.inr hst)

/-! ## C3: the merged site list is sorted by position -/

/-- **C3.** For every input sequence, the merged list of motif sites is
sorted non-decreasing by position. -/
theorem mutation_sites_sorted (s : List Char) :
    List.Pairwise (fun a b => a.position ≤ b.position) (mutation_sites s) := by
  unfold mutation_sites
  have h := @List.sorted_mergeSort MSite
    (fun a b => decide (a.position ≤ b.position))
    (fun a b c hab hbc => by
      simp only [decide_eq_true_eq] at hab hbc ⊢
      omega)
    (fun a b => by
      simp only [Bool.or_eq_true, decide_eq_true_eq]
      omega)
    (allMutationSites s)
  exact h.imp (fun hab => by simpa using hab)
